import Mathlib

/-!
Verification of the async-scraper-api task pipeline against its
natural-language specification.

The definitions below are a shallow embedding of the Python source:

* `normalize_cnpj` embeds `_normalize_cnpj` (src/app/api/routes/scraping.py),
* `mask_cnpj` embeds `mask_cnpj` (src/worker/scraper.py),
* the `Node` tree and the extraction functions embed `parse_result_html`
  and its inner `_find_value_for_label` (src/worker/scraper.py),
* `cache_set_status` embeds `Cache.set_status` (src/app/services/cache.py)
  over a key-value store model of Redis,
* `create_scrape_task`, `create_scrape_batch`, `get_results` and
  `get_results_batch` embed the route handlers (src/app/api/routes/scraping.py),
  with the broker publish outcome injected as a parameter,
* `process_message` embeds the worker loop body (src/worker/worker.py),
  with the fallible external effects injected as a fault record.
-/

namespace AsyncScraper

/-! ## Identifier validator (src/app/api/routes/scraping.py, `_normalize_cnpj`) -/

/-- Model of Python `re.sub(r"\D", "", s)`: keep only the digit characters. -/
def pyDigits (s : String) : List Char :=
  s.data.filter (fun c => c.isDigit)

/-- Numeric value of a digit character, Python `int(n)` on a digit. -/
def charVal (c : Char) : Nat := c.toNat - '0'.toNat

/-- Digit character of a value below 10, Python `str(n)` on a digit. -/
def digitChar (n : Nat) : Char := Char.ofNat ('0'.toNat + n)

/-- Embeds the inner `_calc_dv(nums, weights)` of `_normalize_cnpj`:
weighted sum of the digit characters modulo 11, with remainder below 2
mapped to 0 and otherwise to `11 - r`. -/
def calc_dv (nums : List Char) (weights : List Nat) : Nat :=
  let s := ((nums.zip weights).map (fun nw => charVal nw.1 * nw.2)).sum
  let r := s % 11
  if r < 2 then 0 else 11 - r

/-- First check-digit weights, as written in the source. -/
def dvWeights1 : List Nat := [5, 4, 3, 2, 9, 8, 7, 6, 5, 4, 3, 2]

/-- Second check-digit weights, as written in the source. -/
def dvWeights2 : List Nat := [6, 5, 4, 3, 2, 9, 8, 7, 6, 5, 4, 3, 2]

/-- Core of `_normalize_cnpj` after the digits have been extracted:
the three ordered checks (length, all-identical, check digits) and the
normalized output. -/
def normCore (digits : List Char) : Except String String :=
  if digits.length ≠ 14 then .error "CNPJ deve ter 14 digitos"
  else if digits = List.replicate 14 (digits.headD ' ') then .error "CNPJ invalido"
  else
    let dv1 := calc_dv (digits.take 12) dvWeights1
    let dv2 := calc_dv (digits.take 12 ++ [digitChar dv1]) dvWeights2
    if digits.drop 12 ≠ [digitChar dv1, digitChar dv2] then .error "CNPJ invalido"
    else .ok (String.mk digits)

/-- Embeds `_normalize_cnpj`: strip non-digits, validate, return the
normalized 14-digit string or a `BadRequestError` message. -/
def normalize_cnpj (cnpj : String) : Except String String :=
  normCore (pyDigits cnpj)

/-! ## Mask (src/worker/scraper.py, `mask_cnpj`) -/

/-- Embeds `mask_cnpj`: strip non-digits and format
`d[0:2].d[2:5].d[5:8]/d[8:12]-d[12:14]`. -/
def mask_cnpj (cnpj : String) : String :=
  let d := pyDigits cnpj
  String.mk (d.take 2 ++ '.' :: (d.drop 2).take 3 ++ '.' :: (d.drop 5).take 3
    ++ '/' :: (d.drop 8).take 4 ++ '-' :: (d.drop 12).take 2)

/-! ## Spec-side validator predicate (from the claim's words) -/

/-- Weighted modulo-11 check digit over digit values, phrased from the spec:
remainder below 2 maps to check digit 0, otherwise 11 minus the remainder. -/
def specDv (vals : List Nat) (weights : List Nat) : Nat :=
  let r := ((vals.zip weights).map (fun nw => nw.1 * nw.2)).sum % 11
  if r < 2 then 0 else 11 - r

/-- Spec-side acceptance predicate on the stripped digit list: exactly 14
digits remain, they are not all the same digit, and the last two digits
equal the two weighted modulo-11 check digits computed from the first 12. -/
def cnpjSpecAccept (d : List Char) : Prop :=
  d.length = 14 ∧
  ¬ (∃ c, ∀ x ∈ d, x = c) ∧
  (let vals := d.map charVal
   let dv1 := specDv (vals.take 12) dvWeights1
   let dv2 := specDv (vals.take 12 ++ [dv1]) dvWeights2
   (d.drop 12).map charVal = [dv1, dv2])

/-! ## Document model for the HTML extractor (src/worker/scraper.py)

BeautifulSoup's parse tree is modelled as a rose tree of element nodes
(with a tag and children) and string nodes.  Document order is the
pre-order traversal of the tree, which matches BeautifulSoup's
`next_elements` ordering.  Nodes are addressed by their child-index path
from the root. -/

/-- A parse-tree node: a tag element with children, or a text node. -/
inductive Node where
  | text (s : String)
  | elem (tag : String) (children : List Node)
deriving Repr

/-- Children of a node (a text node has none). -/
def Node.childList : Node → List Node
  | .text _ => []
  | .elem _ cs => cs

/-- Whether a node is a tag element. -/
def Node.isElem : Node → Bool
  | .text _ => false
  | .elem _ _ => true

/-- Node addressed by a child-index path from `root`. -/
def getNode : Node → List Nat → Option Node
  | n, [] => some n
  | n, i :: p =>
    match n.childList.get? i with
    | some c => getNode c p
    | none => none

mutual

/-- All node paths of a tree in document (pre-order) order. -/
def paths : Node → List (List Nat)
  | .text _ => [[]]
  | .elem _ cs => [] :: pathsAux 0 cs

/-- Paths of a list of sibling subtrees starting at child index `i`. -/
def pathsAux : Nat → List Node → List (List Nat)
  | _, [] => []
  | i, c :: cs => (paths c).map (fun p => i :: p) ++ pathsAux (i + 1) cs

end

mutual

/-- All string-node contents of a subtree in document order
(BeautifulSoup `_all_strings`). -/
def texts : Node → List String
  | .text s => [s]
  | .elem _ cs => textsList cs

/-- String-node contents of a list of sibling subtrees. -/
def textsList : List Node → List String
  | [] => []
  | c :: cs => texts c ++ textsList cs

end

/-- BeautifulSoup `get_text(sep)`: all descendant strings joined by `sep`.
On a string node this is the string itself. -/
def get_text (sep : String) (n : Node) : String :=
  String.intercalate sep (texts n)

/-! ## Text normalization helpers of the extractor -/

/-- Split a character list at whitespace characters (possibly producing
empty chunks, like `str.split` on each single whitespace). -/
def splitWsAux : List Char → List Char → List (List Char)
  | [], acc => [acc.reverse]
  | c :: rest, acc =>
    if c.isWhitespace then acc.reverse :: splitWsAux rest []
    else splitWsAux rest (c :: acc)

/-- Embeds `_text_clean` (`re.sub(r"\s+", " ", s).strip()`): collapse
whitespace runs to one space and strip, realized as splitting on
whitespace, dropping empty chunks and joining with single spaces. -/
def text_clean (s : String) : String :=
  String.intercalate " "
    (((splitWsAux s.data []).filter (fun w => w ≠ [])).map (fun w => String.mk w))

/-- Diacritic removal on one character.  Models Python
`unicodedata.normalize("NFKD", s)` followed by dropping combining marks,
restricted to the accented letters that occur in the extractor's label
table and typical page text. -/
def strip_accent_char (c : Char) : Char :=
  if c = 'á' ∨ c = 'à' ∨ c = 'â' ∨ c = 'ã' ∨ c = 'ä' then 'a'
  else if c = 'é' ∨ c = 'è' ∨ c = 'ê' then 'e'
  else if c = 'í' ∨ c = 'ì' ∨ c = 'î' then 'i'
  else if c = 'ó' ∨ c = 'ò' ∨ c = 'ô' ∨ c = 'õ' then 'o'
  else if c = 'ú' ∨ c = 'ù' ∨ c = 'û' ∨ c = 'ü' then 'u'
  else if c = 'ç' then 'c'
  else if c = 'Á' ∨ c = 'À' ∨ c = 'Â' ∨ c = 'Ã' ∨ c = 'Ä' then 'A'
  else if c = 'É' ∨ c = 'È' ∨ c = 'Ê' then 'E'
  else if c = 'Í' ∨ c = 'Ì' ∨ c = 'Î' then 'I'
  else if c = 'Ó' ∨ c = 'Ò' ∨ c = 'Ô' ∨ c = 'Õ' then 'O'
  else if c = 'Ú' ∨ c = 'Ù' ∨ c = 'Û' ∨ c = 'Ü' then 'U'
  else if c = 'Ç' then 'C'
  else c

/-- Embeds `_strip_accents`. -/
def strip_accents (s : String) : String :=
  String.mk (s.data.map strip_accent_char)

/-- Python `str.lower()` (ASCII case fold suffices for the label alphabet). -/
def strLower (s : String) : String :=
  String.mk (s.data.map Char.toLower)

/-- Whether `pat` is a prefix of `s` (helper for the substring test). -/
def isPrefixList : List Char → List Char → Bool
  | [], _ => true
  | _ :: _, [] => false
  | a :: as, b :: bs => a = b && isPrefixList as bs

/-- Python substring membership `pat in s` on character lists. -/
def containsSub (pat : List Char) : List Char → Bool
  | [] => pat.isEmpty
  | c :: rest => isPrefixList pat (c :: rest) || containsSub pat rest

/-! ## BeautifulSoup navigation primitives used by `_find_value_for_label` -/

/-- `soup.find(string=lambda t: t and vnorm in norm(t))`: path of the first
string node in document order whose cleaned, accent-stripped, lowered text
contains `vnorm`. -/
def soup_find_string (root : Node) (vnorm : String) : Option (List Nat) :=
  (paths root).find? (fun p =>
    match getNode root p with
    | some (.text t) =>
      t ≠ "" && containsSub vnorm.data (strLower (strip_accents (text_clean t))).data
    | _ => false)

/-- `el.find_next_sibling()`: the first following sibling of the node at
path `q` that is a tag element. -/
def find_next_sibling (root : Node) (q : List Nat) : Option Node :=
  match q.getLast? with
  | none => none
  | some i =>
    match getNode root q.dropLast with
    | some parent =>
      ((parent.childList.enum.filter (fun kn => i + 1 ≤ kn.1 ∧ kn.2.isElem)).head?).map
        (fun kn => kn.2)
    | none => none

/-- Proper-ancestor paths of `q`, nearest first. -/
def ancestorPaths (q : List Nat) : List (List Nat) :=
  (List.range q.length).reverse.map (fun k => q.take k)

/-- `el.find_parent("tr")`: the nearest proper ancestor tagged `tr`. -/
def find_parent_tr (root : Node) (q : List Nat) : Option Node :=
  (ancestorPaths q).findSome? (fun a =>
    match getNode root a with
    | some (.elem "tr" cs) => some (Node.elem "tr" cs)
    | _ => none)

/-- `tr.find_all(["td", "th"], recursive=False)`: direct children tagged
`td` or `th`. -/
def directCells (tr : Node) : List Node :=
  tr.childList.filter (fun n =>
    match n with
    | .elem "td" _ => true
    | .elem "th" _ => true
    | _ => false)

/-- `el.next_elements`: all nodes strictly after the node at path `q` in
document order. -/
def next_elements (root : Node) (q : List Nat) : List Node :=
  (((paths root).dropWhile (fun p => p ≠ q)).drop 1).filterMap (getNode root)

/-! ## The extractor's label-to-value resolution
(src/worker/scraper.py, `_find_value_for_label`)

`find_value_for_label` mirrors the Python control flow literally: for each
candidate label variant, find the first matching string node; then the
sibling block, the table-row block and the `next_elements` loop, each
returning on the first non-empty text, otherwise falling through (and, if
all fail, moving to the next variant). -/

/-- The `for nxt in el.next_elements` loop: the first node whose cleaned
text is non-empty and, after accent-stripping and lowering, differs from
the normalized label variant. -/
def next_loop (vnorm : String) : List Node → Option String
  | [] => none
  | n :: rest =>
    let txt := text_clean (get_text " " n)
    if txt ≠ "" ∧ strLower (strip_accents txt) ≠ vnorm then some txt
    else next_loop vnorm rest

/-- Embeds `_find_value_for_label(variants)`. -/
def find_value_for_label (root : Node) : List String → Option String
  | [] => none
  | variant :: rest =>
    let vnorm := strLower (strip_accents variant)
    match soup_find_string root vnorm with
    | none => find_value_for_label root rest
    | some p =>
      let el := p.dropLast
      let step3 : Option String :=
        match next_loop vnorm (next_elements root el) with
        | some t => some t
        | none => find_value_for_label root rest
      let step2 : Option String :=
        match find_parent_tr root el with
        | some tr =>
          let cells := directCells tr
          if 2 ≤ cells.length then
            let txt := text_clean (get_text " " (cells.getD 1 (Node.text "")))
            if txt ≠ "" then some txt else step3
          else step3
        | none => step3
      match find_next_sibling root el with
      | some sib =>
        let txt := text_clean (get_text " " sib)
        if txt ≠ "" then some txt else step2
      | none => step2

/-! ## Spec-side formulation: an ordered list of extraction strategies -/

/-- Left-biased choice on options: the first operand when defined,
otherwise the second. -/
def orElseO {α : Type} : Option α → Option α → Option α
  | some a, _ => some a
  | none, b => b

/-- Sequencing on options: feed a defined value to the continuation. -/
def obind {α β : Type} : Option α → (α → Option β) → Option β
  | none, _ => none
  | some a, f => f a

/-- First defined element of a list of options. -/
def firstSome {α : Type} : List (Option α) → Option α
  | [] => none
  | o :: rest => orElseO o (firstSome rest)

/-- Strategy (a) of the claim: the matched element's next sibling's text. -/
def strategySibling (root : Node) (el : List Nat) (_vnorm : String) : Option String :=
  match find_next_sibling root el with
  | some sib =>
    let t := text_clean (get_text " " sib)
    if t ≠ "" then some t else none
  | none => none

/-- Strategy (b) of the claim: the second cell of the enclosing table row. -/
def strategyTableCell (root : Node) (el : List Nat) (_vnorm : String) : Option String :=
  match find_parent_tr root el with
  | some tr =>
    let cells := directCells tr
    if 2 ≤ cells.length then
      let t := text_clean (get_text " " (cells.getD 1 (Node.text "")))
      if t ≠ "" then some t else none
    else none
  | none => none

/-- Strategy (c) of the claim: the first subsequent document node whose
non-empty text, after normalization, differs from the label text. -/
def strategyNextNodes (root : Node) (el : List Nat) (vnorm : String) : Option String :=
  firstSome ((next_elements root el).map (fun n =>
    let t := text_clean (get_text " " n)
    if t ≠ "" ∧ strLower (strip_accents t) ≠ vnorm then some t else none))

/-- The ordered strategy list of the claim. -/
def valueStrategies : List (Node → List Nat → String → Option String) :=
  [strategySibling, strategyTableCell, strategyNextNodes]

/-- Value resolution as the first strategy yielding a non-empty result. -/
def orderedStrategyValue (root : Node) (el : List Nat) (vnorm : String) : Option String :=
  firstSome (valueStrategies.map (fun f => f root el vnorm))

/-- Spec-side resolution over the candidate variants in declared order:
the first variant that matches a string node and whose match resolves to a
value wins. -/
def specFindValue (root : Node) (variants : List String) : Option String :=
  firstSome (variants.map (fun v =>
    obind (soup_find_string root (strLower (strip_accents v)))
      (fun p => orderedStrategyValue root p.dropLast (strLower (strip_accents v)))))

/-! ## Whole-record extraction (src/worker/scraper.py, `parse_result_html`) -/

/-- The fixed label table of `parse_result_html`, in source order. -/
def labelsTable : List (String × List String) :=
  [("cnpj", ["CNPJ"]),
   ("inscricao_estadual", ["Inscrição Estadual"]),
   ("razao_social", ["Nome Empresarial", "Razão Social"]),
   ("contribuinte", ["Contribuinte?"]),
   ("nome_fantasia", ["Nome Fantasia"]),
   ("endereco", ["Endereço Estabelecimento", "Endereço"]),
   ("atividade_principal", ["Atividade Principal"]),
   ("unidade_auxiliar", ["Unidade Auxiliar"]),
   ("condicao_uso", ["Condição de Uso"]),
   ("data_final_contrato", ["Data Final de Contrato"]),
   ("regime_apuracao", ["Regime de Apuração"]),
   ("situacao_cadastral", ["Situação Cadastral Vigente", "Situação Cadastral"]),
   ("data_situacao_cadastral", ["Data desta Situação Cadastral"]),
   ("data_cadastramento", ["Data de Cadastramento"]),
   ("operacoes_nf_e", ["Operações com NF-E"]),
   ("observacoes", ["Observações"]),
   ("atualizado_em", ["Cadastro Atualizado em"]),
   ("data_consulta", ["Data da Consulta"])]

/-- The `for key, variants in labels.items()` loop with Python's
`if val: data[key] = val` guard. -/
def build_fields (root : Node) : List (String × List String) → List (String × String)
  | [] => []
  | (k, vs) :: rest =>
    match find_value_for_label root vs with
    | some v =>
      if v ≠ "" then (k, v) :: build_fields root rest else build_fields root rest
    | none => build_fields root rest

/-- Python `data.get(k)` on the extracted assoc list. -/
def lookupField (data : List (String × String)) (k : String) : Option String :=
  (data.find? (fun kv => kv.1 = k)).map (fun kv => kv.2)

/-- Whether a character list starts with the masked-identifier shape
`\d{2}\.\d{3}\.\d{3}/\d{4}-\d{2}`. -/
def cnpjShape : List Char → Bool
  | a :: b :: p1 :: c :: d :: e :: p2 :: f :: g :: h :: s1 :: i :: j :: k :: m
      :: h1 :: n :: o :: _ =>
    a.isDigit && b.isDigit && p1 = '.' && c.isDigit && d.isDigit && e.isDigit
      && p2 = '.' && f.isDigit && g.isDigit && h.isDigit && s1 = '/' && i.isDigit
      && j.isDigit && k.isDigit && m.isDigit && h1 = '-' && n.isDigit && o.isDigit
  | _ => false

/-- Python `re.search` for the fixed masked-identifier pattern: the
leftmost match. -/
def findCnpjPattern : List Char → Option String
  | [] => none
  | c :: rest =>
    if cnpjShape (c :: rest) then some (String.mk ((c :: rest).take 18))
    else findCnpjPattern rest

/-- Embeds `parse_result_html`: build the field map from the label table,
then, if the identifier field is still missing, fall back to the
masked-identifier regex over the page text. -/
def parse_result_html (root : Node) : List (String × String) :=
  let data := build_fields root labelsTable
  if (lookupField data "cnpj").isSome then data
  else
    match findCnpjPattern (get_text " " root).data with
    | some m => data ++ [("cnpj", m)]
    | none => data

/-! ## Status Store model (src/app/services/cache.py)

Redis holds one JSON document per task id.  JSON values are modelled by
`JVal`; a stored document is an association list in insertion order, as a
Python dict.  The store itself is an association list keyed by task id:
`redisSet` overwrites in place (Redis SET), `redisGet` returns the decoded
document. -/

/-- A JSON value as used by the pipeline: strings and objects. -/
inductive JVal where
  | str (s : String)
  | obj (fields : List (String × JVal))
deriving Repr

/-- A stored JSON document: fields in insertion order. -/
abbrev JObj : Type := List (String × JVal)

/-- Python `d.get(k)` on a JSON object. -/
def jobjGet (o : JObj) (k : String) : Option JVal :=
  (o.find? (fun kv => kv.1 = k)).map (fun kv => kv.2)

/-- Python `base.update(ext)`: existing keys are overwritten in place,
new keys are appended in order. -/
def dictUpdate (base ext : JObj) : JObj :=
  base.map (fun kv =>
    match ext.find? (fun e => e.1 = kv.1) with
    | some e => (kv.1, e.2)
    | none => kv)
  ++ ext.filter (fun e => ¬ base.any (fun b => b.1 = e.1))

/-- The key-value Status Store: one document per task id. -/
abbrev Store : Type := List (String × JObj)

/-- Redis SET: replace the value under the key, or append the key. -/
def redisSet (st : Store) (k : String) (v : JObj) : Store :=
  if st.any (fun kv => kv.1 = k) then
    st.map (fun kv => if kv.1 = k then (k, v) else kv)
  else st ++ [(k, v)]

/-- Redis GET (decoded): the document under the key, if present. -/
def redisGet (st : Store) (k : String) : Option JObj :=
  (st.find? (fun kv => kv.1 = k)).map (fun kv => kv.2)

/-- Number of store entries under a key (a key-value store holds at most
one; this makes "exactly one entry" statable). -/
def countKey (st : Store) (k : String) : Nat :=
  (st.filter (fun kv => kv.1 = k)).length

/-- Embeds the payload construction of `Cache.set_status`:
`{"status": status}`, plus `"result"` when a result is given, updated with
the extra fields when `extra` is truthy. -/
def set_status_payload (status : String) (result : Option JObj) (extra : Option JObj) : JObj :=
  let p : JObj := [("status", JVal.str status)]
  let p2 : JObj :=
    match result with
    | some r => p ++ [("result", JVal.obj r)]
    | none => p
  match extra with
  | some e => if e.isEmpty then p2 else dictUpdate p2 e
  | none => p2

/-- Embeds `Cache.set_status`: serialize the payload under the task id
(the TTL is outside the functional model). -/
def cache_set_status (st : Store) (task_id status : String)
    (result : Option JObj) (extra : Option JObj) : Store :=
  redisSet st task_id (set_status_payload status result extra)

/-! ## API error taxonomy (src/common/errors.py) -/

/-- The application errors raised by the modelled routes, with the

status codes fixed in `common/errors.py`. -/
inductive ApiErr where
  | badRequest (msg : String)
  | queuePublish (msg : String)
  | notFound (msg : String)
deriving Repr

/-- HTTP status code of an application error (`status_code` attributes). -/
def ApiErr.statusCode : ApiErr → Nat
  | .badRequest _ => 400
  | .queuePublish _ => 503
  | .notFound _ => 404

/-! ## Producer routes (src/app/api/routes/scraping.py)

The broker publish is an external effect: its outcome is passed in as an
`Except` value carrying the `QueuePublishError` message on failure
(`publish_task` wraps any broker failure into a `QueuePublishError`). -/

/-- Response of the submit route. -/
structure TaskCreated where
  task_id : String
  status : String
deriving Repr

/-- Embeds `create_scrape_task`: validate, write Queued with the subject
key, publish; on publish failure overwrite the entry to Failed carrying
the error message and re-raise.  Returns the store after the handler and
the handler outcome. -/
def create_scrape_task (st : Store) (raw task_id : String)
    (pub : Except String Unit) : Store × Except ApiErr TaskCreated :=
  match normalize_cnpj raw with
  | .error m => (st, .error (.badRequest m))
  | .ok cnpj =>
    let st1 := cache_set_status st task_id "queued" none (some [("cnpj", JVal.str cnpj)])
    match pub with
    | .ok _ => (st1, .ok ⟨task_id, "queued"⟩)
    | .error msg =>
      let st2 := cache_set_status st1 task_id "failed" (some [("error", JVal.str msg)]) none
      (st2, .error (.queuePublish msg))

/-- One item of the batch-submission response. -/
structure BatchItem where
  cnpj : String
  task_id : String
  status : String
deriving Repr

/-- The loop body of `create_scrape_batch` over the remaining raw inputs.
`gen i` is the fresh task id of the i-th item (the uuid stream), `pub` the
publish outcome per subject key, `pubAcc` the messages actually published
so far and `items` the response items built so far.  A validation failure
raises out of the loop, keeping the store and publishes made so far. -/
def batchGo (st : Store) (raws : List String) (gen : Nat → String) (i : Nat)
    (pub : String → Except String Unit) (pubAcc : List (String × String))
    (items : List BatchItem) :
    Store × List (String × String) × Except ApiErr (List BatchItem) :=
  match raws with
  | [] => (st, pubAcc, .ok items)
  | raw :: rest =>
    match normalize_cnpj raw with
    | .error m => (st, pubAcc, .error (.badRequest m))
    | .ok cnpj =>
      let tid := gen i
      let st1 := cache_set_status st tid "queued" none (some [("cnpj", JVal.str cnpj)])
      match pub cnpj with
      | .error msg =>
        let st2 := cache_set_status st1 tid "failed" (some [("error", JVal.str msg)]) none
        batchGo st2 rest gen (i + 1) pub pubAcc (items ++ [⟨cnpj, tid, "failed"⟩])
      | .ok _ =>
        batchGo st1 rest gen (i + 1) pub (pubAcc ++ [(tid, cnpj)])
          (items ++ [⟨cnpj, tid, "queued"⟩])

/-- Embeds `create_scrape_batch`.  The middle component of the result is
the list of `(task_id, subject_key)` messages published to the queue
during the request. -/
def create_scrape_batch (st : Store) (raws : List String) (gen : Nat → String)
    (pub : String → Except String Unit) :
    Store × List (String × String) × Except ApiErr (List BatchItem) :=
  batchGo st raws gen 0 pub [] []

/-! ## Query routes (src/app/api/routes/scraping.py) -/

/-- Python truthiness of a JSON value (`bool(result)`). -/
def pyTruthy : JVal → Bool
  | .str s => s ≠ ""
  | .obj fs => ¬ fs.isEmpty

/-- Python truthiness of an optional JSON value: `None` is falsy. -/
def pyTruthyOpt : Option JVal → Bool
  | none => false
  | some v => pyTruthy v

/-- Python `a or b` over optional JSON values: `b` when `a` is falsy. -/
def pyOr (a b : Option JVal) : Option JVal :=
  match a with
  | some v => if pyTruthy v then some v else b
  | none => b

/-- The `cnpj` field of the query response:
`data.get("cnpj") or (result.get("cnpj") if isinstance(result, dict) else None)`. -/
def responseCnpj (data : JObj) (result : Option JVal) : Option JVal :=
  pyOr (jobjGet data "cnpj")
    (match result with
     | some (.obj fs) => jobjGet fs "cnpj"
     | _ => none)

/-- The query response model (`TaskResponse`). -/
structure TaskView where
  task_id : String
  status : JVal
  result : Option JVal
  cnpj : Option JVal
  has_data : Option Bool
deriving Repr

/-- Embeds `get_results`: not-found for a missing id, otherwise the status
payload with the derived `has_data` boolean. -/
def get_results (st : Store) (task_id : String) : Except ApiErr TaskView :=
  match redisGet st task_id with
  | none => .error (.notFound "Tarefa nao encontrada")
  | some data =>
    let result := jobjGet data "result"
    let has_data := pyTruthyOpt result
    let cnpj := responseCnpj data result
    .ok ⟨task_id, (jobjGet data "status").getD (JVal.str "unknown"), result, cnpj, some has_data⟩

/-- The batch-query response (`BatchResultsResponse`): per-id responses
plus the "with data" and "without data" buckets of `{task_id, cnpj}`
records. -/
structure BatchView where
  results : List TaskView
  com_dados : List (String × Option JVal)
  sem_dados : List (String × Option JVal)
deriving Repr

/-- The `for tid, raw in zip(task_ids, raw_list)` loop of
`get_results_batch` (Redis MGET returns one optional value per id, in
order). -/
def batchResultsGo (st : Store) : List String → BatchView
  | [] => ⟨[], [], []⟩
  | tid :: rest =>
    let r := batchResultsGo st rest
    match redisGet st tid with
    | none =>
      ⟨⟨tid, JVal.str "unknown", none, none, some false⟩ :: r.results,
       r.com_dados, (tid, none) :: r.sem_dados⟩
    | some data =>
      let result := jobjGet data "result"
      let has_data := pyTruthyOpt result
      let cnpj := responseCnpj data result
      let view : TaskView :=
        ⟨tid, (jobjGet data "status").getD (JVal.str "unknown"), result, cnpj, some has_data⟩
      if has_data then
        ⟨view :: r.results, (tid, cnpj) :: r.com_dados, r.sem_dados⟩
      else
        ⟨view :: r.results, r.com_dados, (tid, cnpj) :: r.sem_dados⟩

/-- Embeds `get_results_batch`: an empty id list is a bad request,
otherwise every id yields exactly one response and is bucketed. -/
def get_results_batch (st : Store) (task_ids : List String) : Except ApiErr BatchView :=
  if task_ids.isEmpty then .error (.badRequest "Forneca ao menos um task_id")
  else .ok (batchResultsGo st task_ids)

/-! ## Worker (src/worker/worker.py, `process_message`)

The external effects of one message delivery are injected as a fault
record: each fallible step either succeeds or raises with a message.
`fetchOutcome` is the result of `fetch_cnpj_data` (the extracted record on
success).  The message body is the decoded JSON document; `decodeFail`
models `json.loads` itself raising on malformed bytes. -/

/-- Outcomes of the fallible steps of one delivery. -/
structure WorkerFx where
  decodeFail : Option String
  cacheCtorFail : Option String
  processingWriteFail : Option String
  fetchOutcome : Except String JObj
  completedWriteFail : Option String
  persistEnabled : Bool
  persistFail : Option String
  failedWriteFail : Option String
  fallbackWriteFail : Option String
deriving Repr

/-- How one delivery ended. -/
inductive WorkerOutcome where
  | completed
  | handledFail
  | failWriteLost
  | raised (e : String)
deriving Repr

/-- The key lookups `payload["task_id"]` and `payload["cnpj"]` on the
decoded message body; a missing key raises (outside the handler's `try`). -/
def parseWorkerMsg (body : JObj) : Except String (String × String) :=
  match jobjGet body "task_id" with
  | none => .error "KeyError: task_id"
  | some (.str t) =>
    match jobjGet body "cnpj" with
    | none => .error "KeyError: cnpj"
    | some (.str c) => .ok (t, c)
    | some (.obj _) => .error "TypeError: cnpj"
  | some (.obj _) => .error "TypeError: task_id"

/-- The Failed payload written through the normal status handle:
`set_status(task_id, "failed", result={"error": e}, extra={"cnpj": cnpj})`. -/
def worker_failed_payload (e cnpj : String) : JObj :=
  set_status_payload "failed" (some [("error", JVal.str e)]) (some [("cnpj", JVal.str cnpj)])

/-- The fallback direct write used when the status handle was never
constructed: `redis.set(task_id, json.dumps({"status": "failed",
"result": {"error": e}, "cnpj": cnpj}))`. -/
def fallback_failed_payload (e cnpj : String) : JObj :=
  [("status", JVal.str "failed"), ("result", JVal.obj [("error", JVal.str e)]),
   ("cnpj", JVal.str cnpj)]

/-- The `except Exception` block of `process_message`: write Failed
through the cache handle when it exists, otherwise through the direct
fallback; a failure of that write itself is swallowed (logged). -/
def handleWorkerExc (st : Store) (task_id cnpj e : String) (fx : WorkerFx)
    (cacheAvail : Bool) : Store × WorkerOutcome :=
  if cacheAvail then
    match fx.failedWriteFail with
    | some _ => (st, .failWriteLost)
    | none => (redisSet st task_id (worker_failed_payload e cnpj), .handledFail)
  else
    match fx.fallbackWriteFail with
    | some _ => (st, .failWriteLost)
    | none => (redisSet st task_id (fallback_failed_payload e cnpj), .handledFail)

/-- Embeds `process_message`: decode and key-lookup the body (outside the
`try`, so a failure there propagates with no status write), then mark
Processing, fetch, mark Completed with the record, optionally persist;
any exception inside the `try` is routed to `handleWorkerExc`. -/
def process_message (st : Store) (body : JObj) (fx : WorkerFx) : Store × WorkerOutcome :=
  match fx.decodeFail with
  | some e => (st, .raised e)
  | none =>
    match parseWorkerMsg body with
    | .error e => (st, .raised e)
    | .ok (task_id, cnpj) =>
      match fx.cacheCtorFail with
      | some e => handleWorkerExc st task_id cnpj e fx false
      | none =>
        match fx.processingWriteFail with
        | some e => handleWorkerExc st task_id cnpj e fx true
        | none =>
          let st1 := cache_set_status st task_id "processing" none none
          match fx.fetchOutcome with
          | .error e => handleWorkerExc st1 task_id cnpj e fx true
          | .ok result =>
            match fx.completedWriteFail with
            | some e => handleWorkerExc st1 task_id cnpj e fx true
            | none =>
              let st2 := cache_set_status st1 task_id "completed" (some result) none
              if ¬ result.isEmpty ∧ fx.persistEnabled then
                match fx.persistFail with
                | some e => handleWorkerExc st2 task_id cnpj e fx true
                | none => (st2, .completed)
              else (st2, .completed)

/-- Whether an `Except` value is a success. -/
def exceptIsOk {ε α : Type} : Except ε α → Bool
  | .ok _ => true
  | .error _ => false

/-- The `(task_id, subject_key)` messages published while processing a
prefix of valid batch items starting at uuid-stream index `i`: one message
per item whose publish outcome succeeded. -/
def prePubs (gen : Nat → String) (pub : String → Except String Unit) :
    Nat → List String → List (String × String)
  | _, [] => []
  | i, r :: rs =>
    match normalize_cnpj r with
    | .ok c => (if exceptIsOk (pub c) then [(gen i, c)] else []) ++ prePubs gen pub (i + 1) rs
    | .error _ => prePubs gen pub (i + 1) rs

theorem charVal_digitChar (n : Nat) (hn : n ≤ 9) : charVal (digitChar n) = n := by
  interval_cases n <;> rfl

theorem isDigit_toNat (c : Char) (h : c.isDigit = true) : 48 ≤ c.toNat ∧ c.toNat ≤ 57 := by
  simp only [Char.isDigit, Bool.and_eq_true, decide_eq_true_eq] at h
  exact h

theorem digitChar_toNat (n : Nat) (hn : n ≤ 9) : (digitChar n).toNat = 48 + n := by
  interval_cases n <;> rfl

theorem char_eq_of_toNat (c c2 : Char) (h : c.toNat = c2.toNat) : c = c2 := by
  have hv : c.val = c2.val := UInt32.ext h
  cases c; cases c2; simp_all

theorem char_eq_digitChar_iff (c : Char) (h : c.isDigit = true) (n : Nat) (hn : n ≤ 9) :
    c = digitChar n ↔ charVal c = n := by
  constructor
  · rintro rfl; exact charVal_digitChar n hn
  · intro hv
    obtain ⟨h1, h2⟩ := isDigit_toNat c h
    apply char_eq_of_toNat
    rw [digitChar_toNat n hn]
    unfold charVal at hv
    have h0 : '0'.toNat = 48 := rfl
    rw [h0] at hv
    omega

theorem zip_charVal_sum (nums : List Char) (w : List Nat) :
    ((nums.zip w).map (fun nw => charVal nw.1 * nw.2)).sum
      = (((nums.map charVal).zip w).map (fun nw => nw.1 * nw.2)).sum := by
  induction nums generalizing w with
  | nil => rfl
  | cons c cs ih =>
    cases w with
    | nil => rfl
    | cons a as => simpa [List.zip] using ih as

theorem calc_dv_eq_specDv (nums : List Char) (w : List Nat) :
    calc_dv nums w = specDv (nums.map charVal) w := by
  unfold calc_dv specDv
  rw [zip_charVal_sum]

theorem calc_dv_le_nine (nums : List Char) (w : List Nat) : calc_dv nums w ≤ 9 := by
  unfold calc_dv
  simp only []
  have h11 : ((nums.zip w).map (fun nw => charVal nw.1 * nw.2)).sum % 11 < 11 :=
    Nat.mod_lt _ (by omega)
  split <;> omega

theorem normCore_ok_iff (d : List Char) (hd : ∀ c ∈ d, c.isDigit) (out : String) :
    normCore d = .ok out ↔ cnpjSpecAccept d ∧ out = String.mk d := by
  by_cases hlen : d.length = 14
  · rw [normCore, if_neg (by omega)]
    by_cases hall : d = List.replicate 14 (d.headD ' ')
    · rw [if_pos hall]
      constructor
      · intro h; simp at h
      · rintro ⟨⟨-, hne, -⟩, -⟩
        exfalso
        apply hne
        refine ⟨d.headD ' ', fun x hx => ?_⟩
        rw [hall] at hx
        exact List.eq_of_mem_replicate hx
    · rw [if_neg hall]
      simp only []
      have hA9 := calc_dv_le_nine (d.take 12) dvWeights1
      have hB9 := calc_dv_le_nine
        (d.take 12 ++ [digitChar (calc_dv (d.take 12) dvWeights1)]) dvWeights2
      have hA : specDv ((List.map charVal d).take 12) dvWeights1
          = calc_dv (d.take 12) dvWeights1 := by
        rw [← List.map_take, ← calc_dv_eq_specDv]
      have hB : specDv ((List.map charVal d).take 12 ++ [calc_dv (d.take 12) dvWeights1])
            dvWeights2
          = calc_dv (d.take 12 ++ [digitChar (calc_dv (d.take 12) dvWeights1)])
              dvWeights2 := by
        rw [← List.map_take,
          show [calc_dv (d.take 12) dvWeights1]
              = List.map charVal [digitChar (calc_dv (d.take 12) dvWeights1)] by
            simp [charVal_digitChar _ hA9],
          ← List.map_append, ← calc_dv_eq_specDv]
      have hnotall : ¬ (∃ c, ∀ x ∈ d, x = c) := by
        rintro ⟨c, hc⟩
        apply hall
        have hrep : d = List.replicate 14 c := by
          rw [List.eq_replicate_iff]
          exact ⟨hlen, hc⟩
        have hhead : d.headD ' ' = c := by rw [hrep]; rfl
        rw [hhead]; exact hrep
      have hlen2 : (d.drop 12).length = 2 := by
        rw [List.length_drop, hlen]
      have hdig2 : ∀ c ∈ d.drop 12, c.isDigit := fun c hc => hd c (List.drop_subset _ _ hc)
      have hdecomp : ∃ c1 c2, d.drop 12 = [c1, c2] := by
        match hx : d.drop 12, hlen2 with
        | [c1, c2], _ => exact ⟨c1, c2, rfl⟩
      obtain ⟨c1, c2, hc⟩ := hdecomp
      have hc1 : c1.isDigit := hdig2 c1 (by rw [hc]; simp)
      have hc2 : c2.isDigit := hdig2 c2 (by rw [hc]; simp)
      have hAB : d.drop 12 = [digitChar (calc_dv (d.take 12) dvWeights1),
            digitChar (calc_dv (d.take 12 ++ [digitChar (calc_dv (d.take 12) dvWeights1)])
              dvWeights2)]
          ↔ (d.drop 12).map charVal = [calc_dv (d.take 12) dvWeights1,
              calc_dv (d.take 12 ++ [digitChar (calc_dv (d.take 12) dvWeights1)])
                dvWeights2] := by
        rw [hc]
        simp only [List.map_cons, List.map_nil, List.cons.injEq, and_true]
        rw [char_eq_digitChar_iff c1 hc1 _ hA9, char_eq_digitChar_iff c2 hc2 _ hB9]
      constructor
      · intro h
        split at h
        · simp at h
        · rename_i hdrop
          rw [not_not] at hdrop
          cases h
          refine ⟨⟨hlen, hnotall, ?_⟩, rfl⟩
          simp only [hA, hB]
          exact hAB.mp hdrop
      · rintro ⟨⟨-, -, hspec⟩, rfl⟩
        simp only [hA, hB] at hspec
        rw [if_neg (not_not_intro (hAB.mpr hspec))]
  · rw [normCore, if_pos (by omega)]
    constructor
    · intro h; simp at h
    · rintro ⟨⟨h14, -⟩, -⟩; exact absurd h14 hlen

theorem pyDigits_all_digits (s : String) : ∀ c ∈ pyDigits s, c.isDigit :=
  fun _ hc => (List.mem_filter.mp hc).2

/-- C4: for every raw input string, the validator strips non-digit
characters and accepts iff exactly 14 digits remain, they are not all the
same digit, and the last two digits equal the two weighted modulo-11 check
digits computed from the first 12 digits (remainder below 2 maps to check
digit 0, otherwise 11 minus the remainder); on acceptance it returns the
normalized 14-digit string, otherwise a validation error. -/
theorem normalize_cnpj_ok_iff (s out : String) :
    normalize_cnpj s = .ok out ↔ cnpjSpecAccept (pyDigits s) ∧ out = String.mk (pyDigits s) :=
  normCore_ok_iff (pyDigits s) (pyDigits_all_digits s) out

theorem mask_reassemble (d : List Char) (hlen : d.length = 14) :
    d.take 2 ++ (d.drop 2).take 3 ++ (d.drop 5).take 3
      ++ (d.drop 8).take 4 ++ (d.drop 12).take 2 = d := by
  simp only [List.append_assoc]
  have e1 : (d.drop 12).take 2 = d.drop 12 :=
    List.take_of_length_le (by rw [List.length_drop, hlen])
  have h12 : (d.drop 8).drop 4 = d.drop 12 := by rw [List.drop_drop]
  have h8 : (d.drop 5).drop 3 = d.drop 8 := by rw [List.drop_drop]
  have h5 : (d.drop 2).drop 3 = d.drop 5 := by rw [List.drop_drop]
  rw [e1, ← h12, List.take_append_drop, ← h8, List.take_append_drop,
    ← h5, List.take_append_drop, List.take_append_drop]

theorem filter_maskList (d : List Char) (hd : ∀ c ∈ d, c.isDigit) (hlen : d.length = 14) :
    (d.take 2 ++ '.' :: (d.drop 2).take 3 ++ '.' :: (d.drop 5).take 3
      ++ '/' :: (d.drop 8).take 4 ++ '-' :: (d.drop 12).take 2).filter
        (fun c => c.isDigit) = d := by
  have hdot : '.'.isDigit = false := rfl
  have hslash : '/'.isDigit = false := rfl
  have hdash : '-'.isDigit = false := rfl
  have f1 : (d.take 2).filter (fun c => c.isDigit) = d.take 2 :=
    List.filter_eq_self.mpr (fun c hc => hd c (List.take_subset _ _ hc))
  have f2 : ((d.drop 2).take 3).filter (fun c => c.isDigit) = (d.drop 2).take 3 :=
    List.filter_eq_self.mpr
      (fun c hc => hd c (List.drop_subset _ _ (List.take_subset _ _ hc)))
  have f3 : ((d.drop 5).take 3).filter (fun c => c.isDigit) = (d.drop 5).take 3 :=
    List.filter_eq_self.mpr
      (fun c hc => hd c (List.drop_subset _ _ (List.take_subset _ _ hc)))
  have f4 : ((d.drop 8).take 4).filter (fun c => c.isDigit) = (d.drop 8).take 4 :=
    List.filter_eq_self.mpr
      (fun c hc => hd c (List.drop_subset _ _ (List.take_subset _ _ hc)))
  have f5 : ((d.drop 12).take 2).filter (fun c => c.isDigit) = (d.drop 12).take 2 :=
    List.filter_eq_self.mpr
      (fun c hc => hd c (List.drop_subset _ _ (List.take_subset _ _ hc)))
  simp only [List.filter_append, List.filter_cons, hdot, hslash, hdash,
    Bool.false_eq_true, if_false, f1, f2, f3, f4, f5]
  exact mask_reassemble d hlen

/-- C5: for every identifier the validator accepts, rendering it in the
punctuated masked form and then normalizing the masked string returns
exactly the same normalized identifier. -/
theorem normalize_mask_roundtrip (raw x : String) (h : normalize_cnpj raw = .ok x) :
    normalize_cnpj (mask_cnpj x) = .ok x := by
  have hd : ∀ c ∈ pyDigits raw, c.isDigit := pyDigits_all_digits raw
  obtain ⟨⟨hlen, -, -⟩, hx⟩ :=
    (normCore_ok_iff (pyDigits raw) hd x).mp h
  have hxdata : x.data = pyDigits raw := by rw [hx]
  have hpx : pyDigits x = pyDigits raw := by
    unfold pyDigits
    rw [hxdata]
    exact List.filter_eq_self.mpr hd
  have hm : pyDigits (mask_cnpj x) = pyDigits raw := by
    unfold mask_cnpj
    rw [hpx]
    show (String.mk _).data.filter _ = _
    exact filter_maskList (pyDigits raw) hd hlen
  show normCore (pyDigits (mask_cnpj x)) = .ok x
  rw [hm]
  exact h

/-- Witness for C5 at a concrete input. -/
theorem normalize_mask_roundtrip_witness :
    normalize_cnpj "00.006.486/0001-75" = .ok "00006486000175" ∧
    normalize_cnpj (mask_cnpj "00006486000175") = .ok "00006486000175" :=
  ⟨rfl, normalize_mask_roundtrip "00.006.486/0001-75" "00006486000175" rfl⟩

/-! ## Store lemmas -/

theorem redisSet_fresh (st : Store) (k : String) (v : JObj)
    (h : ∀ kv ∈ st, kv.1 ≠ k) : redisSet st k v = st ++ [(k, v)] := by
  have hany : st.any (fun kv => kv.1 = k) = false := by
    simp only [List.any_eq_false, decide_eq_true_eq]
    exact h
  simp [redisSet, hany]

theorem map_keep_of_ne (st : Store) (k : String) (v : JObj)
    (h : ∀ kv ∈ st, kv.1 ≠ k) :
    st.map (fun kv => if kv.1 = k then (k, v) else kv) = st := by
  induction st with
  | nil => rfl
  | cons a st ih =>
    simp only [List.map_cons, List.cons.injEq]
    constructor
    · rw [if_neg (h a (by simp))]
    · exact ih (fun kv hkv => h kv (by simp [hkv]))

theorem redisSet_overwrite_last (st : Store) (k : String) (v w : JObj)
    (h : ∀ kv ∈ st, kv.1 ≠ k) :
    redisSet (st ++ [(k, v)]) k w = st ++ [(k, w)] := by
  have hany : (st ++ [(k, v)]).any (fun kv => kv.1 = k) = true := by
    simp [List.any_eq_true]
  simp only [redisSet, hany, if_true, List.map_append, map_keep_of_ne st k w h,
    List.map_cons, List.map_nil, if_pos rfl]

theorem redisGet_append_last (st : Store) (k : String) (w : JObj)
    (h : ∀ kv ∈ st, kv.1 ≠ k) :
    redisGet (st ++ [(k, w)]) k = some w := by
  induction st with
  | nil => simp [redisGet, List.find?]
  | cons a st ih =>
    have ha : (a.1 = k) = False := by
      simp [h a (by simp)]
    simp only [redisGet, List.cons_append, List.find?]
    rw [show (decide (a.1 = k)) = false by simp [ha]]
    exact ih (fun kv hkv => h kv (by simp [hkv]))

theorem countKey_append_last (st : Store) (k : String) (w : JObj)
    (h : ∀ kv ∈ st, kv.1 ≠ k) :
    countKey (st ++ [(k, w)]) k = 1 := by
  have hnil : st.filter (fun kv => decide (kv.1 = k)) = [] := by
    rw [List.filter_eq_nil_iff]
    intro kv hkv
    simp [h kv hkv]
  simp [countKey, List.filter_append, hnil]

/-- The Failed payload written by the producer on publish failure. -/
theorem producer_failed_payload_eq (msg : String) :
    set_status_payload "failed" (some [("error", JVal.str msg)]) none =
      [("status", JVal.str "failed"), ("result", JVal.obj [("error", JVal.str msg)])] := rfl

/-- The Queued payload written by the producer before publishing. -/
theorem producer_queued_payload_eq (cnpj : String) :
    set_status_payload "queued" none (some [("cnpj", JVal.str cnpj)]) =
      [("status", JVal.str "queued"), ("cnpj", JVal.str cnpj)] := rfl

theorem create_scrape_task_publish_failure_state (st : Store) (raw tid cnpj msg : String)
    (hn : normalize_cnpj raw = .ok cnpj)
    (hfresh : ∀ kv ∈ st, kv.1 ≠ tid) :
    create_scrape_task st raw tid (.error msg) =
      (st ++ [(tid, [("status", JVal.str "failed"),
                     ("result", JVal.obj [("error", JVal.str msg)])])],
       .error (.queuePublish msg)) := by
  unfold create_scrape_task
  rw [hn]
  simp only [cache_set_status, producer_queued_payload_eq, producer_failed_payload_eq,
    redisSet_fresh st tid _ hfresh]
  rw [redisSet_overwrite_last st tid _ _ hfresh]

/-- C3: if publishing ultimately fails, the producer overwrites the job's
status to Failed carrying the failure reason, surfaces a
service-unavailable class error (status code 503), and leaves exactly one
Status Store entry for the job, with status Failed and the error text
embedded in the result. -/
theorem producer_publish_failure_marks_failed (st : Store) (raw tid cnpj msg : String)
    (hn : normalize_cnpj raw = .ok cnpj)
    (hfresh : ∀ kv ∈ st, kv.1 ≠ tid) :
    (create_scrape_task st raw tid (.error msg)).2 = .error (.queuePublish msg) ∧
    (ApiErr.queuePublish msg).statusCode = 503 ∧
    countKey (create_scrape_task st raw tid (.error msg)).1 tid = 1 ∧
    redisGet (create_scrape_task st raw tid (.error msg)).1 tid =
      some [("status", JVal.str "failed"),
            ("result", JVal.obj [("error", JVal.str msg)])] := by
  rw [create_scrape_task_publish_failure_state st raw tid cnpj msg hn hfresh]
  refine ⟨rfl, rfl, ?_, ?_⟩
  · exact countKey_append_last st tid _ hfresh
  · exact redisGet_append_last st tid _ hfresh

/-- Witness for C3 at a concrete input. -/
theorem producer_publish_failure_marks_failed_witness :
    normalize_cnpj "00006486000175" = .ok "00006486000175" ∧
    ((create_scrape_task [] "00006486000175" "t1" (.error "Falha simulada")).2 =
        .error (.queuePublish "Falha simulada") ∧
      (ApiErr.queuePublish "Falha simulada").statusCode = 503 ∧
      countKey (create_scrape_task [] "00006486000175" "t1"
        (.error "Falha simulada")).1 "t1" = 1 ∧
      redisGet (create_scrape_task [] "00006486000175" "t1"
          (.error "Falha simulada")).1 "t1" =
        some [("status", JVal.str "failed"),
              ("result", JVal.obj [("error", JVal.str "Falha simulada")])]) :=
  ⟨rfl, by
    have h := producer_publish_failure_marks_failed [] "00006486000175" "t1"
      "00006486000175" "Falha simulada" rfl (by simp)
    exact ⟨h.1, h.2.1, h.2.2.1, h.2.2.2⟩⟩

/-- C10: after a producer-side publish failure, the job's entry consists
exactly of status `failed` and a result holding only the error text; the
subject key recorded by the initial Queued write (which did carry it) is
no longer present, because each `set_status` write replaces the stored
value entirely and the failure-path write passes no extra fields. -/
theorem publish_failure_entry_drops_subject_key (st : Store) (raw tid cnpj msg : String)
    (hn : normalize_cnpj raw = .ok cnpj)
    (hfresh : ∀ kv ∈ st, kv.1 ≠ tid) :
    jobjGet (set_status_payload "queued" none (some [("cnpj", JVal.str cnpj)])) "cnpj" =
      some (JVal.str cnpj) ∧
    redisGet (create_scrape_task st raw tid (.error msg)).1 tid =
      some [("status", JVal.str "failed"),
            ("result", JVal.obj [("error", JVal.str msg)])] ∧
    jobjGet [("status", JVal.str "failed"),
             ("result", JVal.obj [("error", JVal.str msg)])] "cnpj" = none := by
  refine ⟨rfl, ?_, rfl⟩
  rw [create_scrape_task_publish_failure_state st raw tid cnpj msg hn hfresh]
  exact redisGet_append_last st tid _ hfresh

/-- Witness for C10 at a concrete input. -/
theorem publish_failure_entry_drops_subject_key_witness :
    normalize_cnpj "00012377000160" = .ok "00012377000160" ∧
    (jobjGet (set_status_payload "queued" none
        (some [("cnpj", JVal.str "00012377000160")])) "cnpj" =
        some (JVal.str "00012377000160") ∧
      redisGet (create_scrape_task [] "00012377000160" "t2" (.error "Falha X")).1 "t2" =
        some [("status", JVal.str "failed"),
              ("result", JVal.obj [("error", JVal.str "Falha X")])] ∧
      jobjGet [("status", JVal.str "failed"),
               ("result", JVal.obj [("error", JVal.str "Falha X")])] "cnpj" = none) :=
  ⟨rfl,
    publish_failure_entry_drops_subject_key [] "00012377000160" "t2" "00012377000160"
      "Falha X" rfl (by simp)⟩

theorem batchGo_validation_failure (pre : List String) (st : Store) (bad : String)
    (rest : List String) (gen : Nat → String) (i : Nat) (pub : String → Except String Unit)
    (pubAcc : List (String × String)) (items : List BatchItem) (m : String)
    (hpre : ∀ r ∈ pre, exceptIsOk (normalize_cnpj r) = true)
    (hbad : normalize_cnpj bad = .error m) :
    (batchGo st (pre ++ bad :: rest) gen i pub pubAcc items).2.1
        = pubAcc ++ prePubs gen pub i pre ∧
    (batchGo st (pre ++ bad :: rest) gen i pub pubAcc items).2.2
        = .error (.badRequest m) := by
  induction pre generalizing st i pubAcc items with
  | nil =>
    rw [List.nil_append]
    unfold batchGo
    rw [hbad]
    simp [prePubs]
  | cons r pre ih =>
    have hr := hpre r (by simp)
    cases hnr : normalize_cnpj r with
    | error e => rw [hnr] at hr; simp [exceptIsOk] at hr
    | ok c =>
      rw [List.cons_append]
      unfold batchGo
      rw [hnr]
      simp only [prePubs, hnr]
      cases hp : pub c with
      | ok u =>
        have hrec := ih
          (cache_set_status st (gen i) "queued" none (some [("cnpj", JVal.str c)]))
          (i + 1) (pubAcc ++ [(gen i, c)]) (items ++ [⟨c, gen i, "queued"⟩])
          (fun x hx => hpre x (List.mem_cons_of_mem r hx))
        simp only [hp, exceptIsOk, if_true, List.append_assoc, List.singleton_append]
          at hrec ⊢
        exact hrec
      | error msg =>
        have hrec := ih
          (cache_set_status
            (cache_set_status st (gen i) "queued" none (some [("cnpj", JVal.str c)]))
            (gen i) "failed" (some [("error", JVal.str msg)]) none)
          (i + 1) pubAcc (items ++ [⟨c, gen i, "failed"⟩])
          (fun x hx => hpre x (List.mem_cons_of_mem r hx))
        simp only [hp, exceptIsOk, if_false, List.nil_append] at hrec ⊢
        exact hrec

/-- Counterexample to C1 as stated: submitting the batch
`["00006486000175", "123"]` with a healthy broker raises the validation
error, yet the first item HAS been published to the queue before the
abort — the published-message list is non-empty. -/
theorem batch_first_item_published_despite_abort :
    (create_scrape_batch [] ["00006486000175", "123"] (fun i => toString i)
      (fun _ => .ok ())).2.1 = [("0", "00006486000175")] ∧
    (create_scrape_batch [] ["00006486000175", "123"] (fun i => toString i)
      (fun _ => .ok ())).2.2 = .error (.badRequest "CNPJ deve ter 14 digitos") ∧
    ([("0", "00006486000175")] : List (String × String)) ≠ [] :=
  ⟨rfl, rfl, by simp⟩

/-- C1 (amended): a validation failure on an item aborts the whole batch
at that item with a validation error, and no publish is attempted for the
invalid item or any later item; but items before the failing one have
already been validated, written as Queued and published — their publishes
are exactly the successful publishes of the valid prefix. -/
theorem batch_validation_failure_aborts_rest_only (st : Store) (pre : List String) (bad : String) (rest : List String)
    (gen : Nat → String) (pub : String → Except String Unit) (m : String)
    (hpre : ∀ r ∈ pre, exceptIsOk (normalize_cnpj r) = true)
    (hbad : normalize_cnpj bad = .error m) :
    (create_scrape_batch st (pre ++ bad :: rest) gen pub).2.1 = prePubs gen pub 0 pre ∧
    (create_scrape_batch st (pre ++ bad :: rest) gen pub).2.2
      = .error (.badRequest m) := by
  have h := batchGo_validation_failure pre st bad rest gen 0 pub [] [] m hpre hbad
  simpa using h

/-- Witness for the amended C1 at a concrete input. -/
theorem batch_validation_failure_aborts_rest_only_witness :
    (∀ r ∈ ["00006486000175"], exceptIsOk (normalize_cnpj r) = true) ∧
    normalize_cnpj "123" = .error "CNPJ deve ter 14 digitos" ∧
    ((create_scrape_batch [] (["00006486000175"] ++ "123" :: []) (fun i => toString i)
        (fun _ => .ok ())).2.1
      = prePubs (fun i => toString i) (fun _ => .ok ()) 0 ["00006486000175"] ∧
    (create_scrape_batch [] (["00006486000175"] ++ "123" :: []) (fun i => toString i)
        (fun _ => .ok ())).2.2
      = .error (.badRequest "CNPJ deve ter 14 digitos")) :=
  ⟨by decide, rfl,
    batch_validation_failure_aborts_rest_only [] ["00006486000175"] "123" []
      (fun i => toString i) (fun _ => .ok ()) "CNPJ deve ter 14 digitos"
      (by decide) rfl⟩

theorem redisGet_redisSet_self (st : Store) (k : String) (v : JObj) :
    redisGet (redisSet st k v) k = some v := by
  induction st with
  | nil => simp [redisSet, redisGet, List.find?]
  | cons a st ih =>
    by_cases ha : a.1 = k
    · have hany : (a :: st).any (fun kv => kv.1 = k) = true := by simp [ha]
      simp only [redisSet, hany, if_true, List.map_cons, if_pos ha, redisGet]
      rw [List.find?_cons_of_pos _ (by simp)]
      rfl
    · have hany : (a :: st).any (fun kv => kv.1 = k) = st.any (fun kv => kv.1 = k) := by
        simp [List.any_cons, ha]
      cases hst : st.any (fun kv => kv.1 = k) with
      | true =>
        simp only [redisSet, hany, hst, if_true, List.map_cons, if_neg ha, redisGet]
        rw [List.find?_cons_of_neg _ (by simp [ha])]
        have ih2 := ih
        simp only [redisSet, hst, if_true] at ih2
        simpa [redisGet] using ih2
      | false =>
        simp only [redisSet, hany, hst, Bool.false_eq_true, if_false, List.cons_append,
          redisGet]
        rw [List.find?_cons_of_neg _ (by simp [ha])]
        have ih2 := ih
        simp only [redisSet, hst, Bool.false_eq_true, if_false] at ih2
        simpa [redisGet] using ih2

theorem worker_failed_payload_fields (e c : String) :
    worker_failed_payload e c =
      [("status", JVal.str "failed"), ("result", JVal.obj [("error", JVal.str e)]),
       ("cnpj", JVal.str c)] := rfl

/-- C2 (amended): for every consumed message whose body parses (task_id
and cnpj both present), any exception raised while marking Processing or
during fetch/extraction — including when the Status Store handle itself
could not be obtained, covered by the fallback direct write — leads to a
terminal status entry for the job, provided the failure-path write itself
succeeds: Completed on success, otherwise Failed carrying the error
message and the subject key.  Message-parse failures, by contrast,
propagate without any status write (see the counterexample). -/
theorem worker_terminal_write_after_parse (st : Store) (body : JObj) (fx : WorkerFx) (t c : String)
    (hparse : parseWorkerMsg body = .ok (t, c))
    (hdecode : fx.decodeFail = none)
    (hfw : fx.failedWriteFail = none)
    (hfb : fx.fallbackWriteFail = none) :
    ∃ p, redisGet (process_message st body fx).1 t = some p ∧
      (((process_message st body fx).2 = .completed ∧
          jobjGet p "status" = some (JVal.str "completed")) ∨
        (jobjGet p "status" = some (JVal.str "failed") ∧
          (∃ e, jobjGet p "result" = some (JVal.obj [("error", JVal.str e)])) ∧
          jobjGet p "cnpj" = some (JVal.str c))) := by
  cases hccf : fx.cacheCtorFail with
  | some e =>
    have hpm : process_message st body fx
        = (redisSet st t (fallback_failed_payload e c), .handledFail) := by
      unfold process_message
      rw [hdecode, hparse, hccf]
      unfold handleWorkerExc
      rw [hfb]
      rfl
    rw [hpm]
    exact ⟨fallback_failed_payload e c, redisGet_redisSet_self st t _,
      Or.inr ⟨rfl, ⟨e, rfl⟩, rfl⟩⟩
  | none =>
    cases hpwf : fx.processingWriteFail with
    | some e =>
      have hpm : process_message st body fx
          = (redisSet st t (worker_failed_payload e c), .handledFail) := by
        unfold process_message
        rw [hdecode, hparse, hccf, hpwf]
        unfold handleWorkerExc
        rw [hfw]
        rfl
      rw [hpm]
      exact ⟨worker_failed_payload e c, redisGet_redisSet_self st t _,
        Or.inr ⟨rfl, ⟨e, rfl⟩, rfl⟩⟩
    | none =>
      cases hfo : fx.fetchOutcome with
      | error e =>
        have hpm : process_message st body fx
            = (redisSet (cache_set_status st t "processing" none none) t
                (worker_failed_payload e c), .handledFail) := by
          unfold process_message
          rw [hdecode, hparse, hccf, hpwf, hfo]
          unfold handleWorkerExc
          rw [hfw]
          rfl
        rw [hpm]
        exact ⟨worker_failed_payload e c, redisGet_redisSet_self _ t _,
          Or.inr ⟨rfl, ⟨e, rfl⟩, rfl⟩⟩
      | ok result =>
        cases hcwf : fx.completedWriteFail with
        | some e =>
          have hpm : process_message st body fx
              = (redisSet (cache_set_status st t "processing" none none) t
                  (worker_failed_payload e c), .handledFail) := by
            unfold process_message
            rw [hdecode, hparse, hccf, hpwf, hfo, hcwf]
            unfold handleWorkerExc
            rw [hfw]
            rfl
          rw [hpm]
          exact ⟨worker_failed_payload e c, redisGet_redisSet_self _ t _,
            Or.inr ⟨rfl, ⟨e, rfl⟩, rfl⟩⟩
        | none =>
          have h1 : process_message st body fx =
              (if ¬ result.isEmpty = true ∧ fx.persistEnabled = true then
                match fx.persistFail with
                | some e => handleWorkerExc
                    (cache_set_status (cache_set_status st t "processing" none none) t
                      "completed" (some result) none) t c e fx true
                | none => (cache_set_status (cache_set_status st t "processing" none none)
                    t "completed" (some result) none, .completed)
              else (cache_set_status (cache_set_status st t "processing" none none) t
                  "completed" (some result) none, .completed)) := by
            unfold process_message
            rw [hdecode, hparse, hccf, hpwf, hfo, hcwf]
          cases hre : result.isEmpty with
          | true =>
            rw [h1, if_neg (by rw [hre]; simp)]
            exact ⟨set_status_payload "completed" (some result) none,
              redisGet_redisSet_self _ t _, Or.inl ⟨rfl, rfl⟩⟩
          | false =>
            cases hpe : fx.persistEnabled with
            | false =>
              rw [h1, if_neg (by rw [hpe]; simp)]
              exact ⟨set_status_payload "completed" (some result) none,
                redisGet_redisSet_self _ t _, Or.inl ⟨rfl, rfl⟩⟩
            | true =>
              cases hpf : fx.persistFail with
              | some e =>
                rw [h1, if_pos (by rw [hre, hpe]; simp), hpf]
                unfold handleWorkerExc
                rw [hfw]
                exact ⟨worker_failed_payload e c, redisGet_redisSet_self _ t _,
                  Or.inr ⟨rfl, ⟨e, rfl⟩, rfl⟩⟩
              | none =>
                rw [h1, if_pos (by rw [hre, hpe]; simp), hpf]
                exact ⟨set_status_payload "completed" (some result) none,
                  redisGet_redisSet_self _ t _, Or.inl ⟨rfl, rfl⟩⟩

/-- Counterexample to C2 as stated: a consumed message whose body lacks
the `cnpj` key raises out of the worker (the key lookup happens before the
protected block) and leaves the Status Store untouched — no Failed status
is written for the job, contradicting "no consumed message leaves its job
without a terminal status write". -/
theorem worker_parse_failure_no_status_write :
    process_message [] [("task_id", JVal.str "t1")]
        ⟨none, none, none, .ok [], none, false, none, none, none⟩
      = ([], .raised "KeyError: cnpj") ∧
    redisGet (process_message [] [("task_id", JVal.str "t1")]
        ⟨none, none, none, .ok [], none, false, none, none, none⟩).1 "t1" = none :=
  ⟨rfl, rfl⟩

/-- Witness for the amended C2 at a concrete input. -/
theorem worker_terminal_write_after_parse_witness :
    parseWorkerMsg [("task_id", JVal.str "t1"), ("cnpj", JVal.str "00006486000175")]
      = .ok ("t1", "00006486000175") ∧
    ∃ p, redisGet (process_message [] [("task_id", JVal.str "t1"),
        ("cnpj", JVal.str "00006486000175")]
        ⟨none, none, none, .error "boom", none, false, none, none, none⟩).1 "t1"
        = some p ∧
      (((process_message [] [("task_id", JVal.str "t1"),
          ("cnpj", JVal.str "00006486000175")]
          ⟨none, none, none, .error "boom", none, false, none, none, none⟩).2
            = .completed ∧
          jobjGet p "status" = some (JVal.str "completed")) ∨
        (jobjGet p "status" = some (JVal.str "failed") ∧
          (∃ e, jobjGet p "result" = some (JVal.obj [("error", JVal.str e)])) ∧
          jobjGet p "cnpj" = some (JVal.str "00006486000175"))) :=
  ⟨rfl, worker_terminal_write_after_parse [] _ _ "t1" "00006486000175" rfl rfl rfl rfl⟩

theorem pyTruthy_obj_iff (fs : JObj) : pyTruthy (JVal.obj fs) = true ↔ fs ≠ [] := by
  simp [pyTruthy]

theorem batchResultsGo_length (st : Store) (ids : List String) :
    (batchResultsGo st ids).results.length = ids.length := by
  induction ids with
  | nil => rfl
  | cons tid rest ih =>
    simp only [batchResultsGo]
    cases redisGet st tid with
    | none => simpa using ih
    | some data =>
      by_cases hd : pyTruthyOpt (jobjGet data "result") = true
      · simp only [hd, if_true, List.length_cons, ih]
      · simp only [Bool.not_eq_true] at hd
        simp only [hd, Bool.false_eq_true, if_false, List.length_cons, ih]

theorem batchResultsGo_missing_in_sem (st : Store) (ids : List String) (tid : String)
    (hmem : tid ∈ ids) (hmiss : redisGet st tid = none) :
    (tid, (none : Option JVal)) ∈ (batchResultsGo st ids).sem_dados := by
  induction ids with
  | nil => cases hmem
  | cons t rest ih =>
    simp only [batchResultsGo]
    rcases List.mem_cons.mp hmem with rfl | hmem2
    · rw [hmiss]
      simp
    · cases hget : redisGet st t with
      | none => simpa using Or.inr (ih hmem2)
      | some data =>
        by_cases hd : pyTruthyOpt (jobjGet data "result") = true
        · simp only [hd, if_true]
          exact ih hmem2
        · simp only [Bool.not_eq_true] at hd
          simp only [hd, Bool.false_eq_true, if_false, List.mem_cons]
          exact Or.inr (ih hmem2)

/-- C8: for every non-empty list of queried ids, batch query succeeds with
exactly one result per input id and never errors on unknown ids: a missing
id lands in the "without data" bucket with a null subject key; and for the
pair `[present, missing]` (the present entry carrying a non-empty result)
exactly one id lands in each bucket. -/
theorem batch_query_one_result_per_id (st : Store) (ids : List String) (p m : String)
    (entry fs : JObj) (hids : ids ≠ [])
    (hp : redisGet st p = some entry)
    (hres : jobjGet entry "result" = some (JVal.obj fs)) (hfs : fs ≠ [])
    (hm : redisGet st m = none) :
    (∃ bv, get_results_batch st ids = .ok bv ∧
      bv.results.length = ids.length ∧
      (∀ tid ∈ ids, redisGet st tid = none → (tid, (none : Option JVal)) ∈ bv.sem_dados)) ∧
    (∃ bv2, get_results_batch st [p, m] = .ok bv2 ∧
      bv2.results.length = 2 ∧
      (∃ cv, bv2.com_dados = [(p, cv)]) ∧
      bv2.sem_dados = [(m, (none : Option JVal))]) := by
  constructor
  · refine ⟨batchResultsGo st ids, ?_, batchResultsGo_length st ids,
      fun tid hmem hmiss => batchResultsGo_missing_in_sem st ids tid hmem hmiss⟩
    unfold get_results_batch
    rw [if_neg (by simpa [List.isEmpty_iff] using hids)]
  · have htrue : pyTruthyOpt (jobjGet entry "result") = true := by
      rw [hres]
      exact (pyTruthy_obj_iff fs).mpr hfs
    refine ⟨batchResultsGo st [p, m], ?_, ?_, ?_, ?_⟩
    · unfold get_results_batch
      rw [if_neg (by simp)]
    · exact batchResultsGo_length st [p, m]
    · refine ⟨responseCnpj entry (jobjGet entry "result"), ?_⟩
      simp only [batchResultsGo, hp, hm, htrue, if_true]
    · simp only [batchResultsGo, hp, hm, htrue, if_true]

/-- C9: for every queried job whose stored entry carries a result map, the
has_data field of the response is the derived boolean "the result map is
non-empty" — true exactly when the map has at least one field — and a
completed job with an empty map yields has_data false as a normal (.ok)
response, not an error.  The batch query derives the same boolean for the
same entry. -/
theorem has_data_is_record_nonempty (st : Store) (tid : String) (data fs : JObj)
    (hget : redisGet st tid = some data)
    (hres : jobjGet data "result" = some (JVal.obj fs)) :
    (∃ view, get_results st tid = .ok view ∧
      view.result = some (JVal.obj fs) ∧
      view.has_data = some (pyTruthy (JVal.obj fs)) ∧
      (pyTruthy (JVal.obj fs) = true ↔ fs ≠ [])) ∧
    (∃ view2, (batchResultsGo st [tid]).results = [view2] ∧
      view2.has_data = some (pyTruthy (JVal.obj fs))) := by
  constructor
  · refine ⟨⟨tid, (jobjGet data "status").getD (JVal.str "unknown"),
      some (JVal.obj fs), responseCnpj data (some (JVal.obj fs)),
      some (pyTruthy (JVal.obj fs))⟩, ?_, rfl, rfl, pyTruthy_obj_iff fs⟩
    unfold get_results
    rw [hget]
    simp only [hres, pyTruthyOpt]
  · refine ⟨⟨tid, (jobjGet data "status").getD (JVal.str "unknown"),
      jobjGet data "result", responseCnpj data (jobjGet data "result"),
      some (pyTruthyOpt (jobjGet data "result"))⟩, ?_, by
        simp only [hres, pyTruthyOpt]⟩
    simp only [batchResultsGo, hget]
    by_cases hd : pyTruthyOpt (jobjGet data "result") = true
    · simp only [hd, if_true, batchResultsGo]
    · simp only [Bool.not_eq_true] at hd
      simp only [hd, Bool.false_eq_true, if_false, batchResultsGo]

/-- Witness for C8 at a concrete store. -/
theorem batch_query_one_result_per_id_witness :
    (["ok-1", "no-1"] : List String) ≠ [] ∧
    redisGet [("ok-1", [("status", JVal.str "completed"),
        ("result", JVal.obj [("cnpj", JVal.str "x")])])] "ok-1"
      = some [("status", JVal.str "completed"),
          ("result", JVal.obj [("cnpj", JVal.str "x")])] ∧
    (∃ bv2, get_results_batch [("ok-1", [("status", JVal.str "completed"),
          ("result", JVal.obj [("cnpj", JVal.str "x")])])] ["ok-1", "no-1"] = .ok bv2 ∧
      bv2.results.length = 2 ∧
      (∃ cv, bv2.com_dados = [("ok-1", cv)]) ∧
      bv2.sem_dados = [("no-1", (none : Option JVal))]) :=
  ⟨by simp, rfl,
    (batch_query_one_result_per_id
      [("ok-1", [("status", JVal.str "completed"),
        ("result", JVal.obj [("cnpj", JVal.str "x")])])]
      ["ok-1", "no-1"] "ok-1" "no-1"
      [("status", JVal.str "completed"), ("result", JVal.obj [("cnpj", JVal.str "x")])]
      [("cnpj", JVal.str "x")]
      (by simp) rfl rfl (by simp) rfl).2⟩

/-- Witness for C9 at a concrete store with an empty record. -/
theorem has_data_is_record_nonempty_witness :
    redisGet [("t9", [("status", JVal.str "completed"), ("result", JVal.obj [])])] "t9"
      = some [("status", JVal.str "completed"), ("result", JVal.obj [])] ∧
    (∃ view, get_results [("t9", [("status", JVal.str "completed"),
        ("result", JVal.obj [])])] "t9" = .ok view ∧
      view.result = some (JVal.obj []) ∧
      view.has_data = some (pyTruthy (JVal.obj [])) ∧
      (pyTruthy (JVal.obj []) = true ↔ ([] : JObj) ≠ [])) :=
  ⟨rfl,
    (has_data_is_record_nonempty
      [("t9", [("status", JVal.str "completed"), ("result", JVal.obj [])])] "t9"
      [("status", JVal.str "completed"), ("result", JVal.obj [])] []
      rfl rfl).1⟩

theorem build_fields_values_nonempty (root : Node) (tbl : List (String × List String)) :
    ∀ kv ∈ build_fields root tbl, kv.2 ≠ "" := by
  induction tbl with
  | nil => intro kv hkv; cases hkv
  | cons e rest ih =>
    obtain ⟨k, vs⟩ := e
    intro kv hkv
    simp only [build_fields] at hkv
    split at hkv
    · split at hkv
      · rename_i hv
        rcases List.mem_cons.mp hkv with rfl | hkv2
        · exact hv
        · exact ih kv hkv2
      · exact ih kv hkv
    · exact ih kv hkv

theorem findCnpjPattern_nonempty (l : List Char) (s : String)
    (h : findCnpjPattern l = some s) : s ≠ "" := by
  induction l with
  | nil => simp [findCnpjPattern] at h
  | cons c rest ih =>
    simp only [findCnpjPattern] at h
    by_cases hs : cnpjShape (c :: rest) = true
    · rw [if_pos hs] at h
      injection h with h2
      subst h2
      intro hcon
      have hdata : (c :: rest).take 18 = [] := congrArg String.data hcon
      simp at hdata
    · rw [if_neg hs] at h
      exact ih h

/-- C7: for every input document, extraction returns a record without
raising (the embedding is a total function): every field present in the
output has a non-empty text value, a field with no resolvable value is
omitted entirely (never present as an empty string), and the empty record
produced on an empty document is a valid non-error outcome. -/
theorem parse_result_html_omits_empty (root : Node) :
    (∀ kv ∈ parse_result_html root, kv.2 ≠ "") ∧
    parse_result_html (Node.elem "html" []) = [] := by
  constructor
  · intro kv hkv
    unfold parse_result_html at hkv
    by_cases hc : (lookupField (build_fields root labelsTable) "cnpj").isSome = true
    · rw [if_pos hc] at hkv
      exact build_fields_values_nonempty root labelsTable kv hkv
    · rw [if_neg hc] at hkv
      cases hf : findCnpjPattern (get_text " " root).data with
      | none =>
        rw [hf] at hkv
        exact build_fields_values_nonempty root labelsTable kv hkv
      | some mtext =>
        rw [hf] at hkv
        rcases List.mem_append.mp hkv with hkv2 | hkv3
        · exact build_fields_values_nonempty root labelsTable kv hkv2
        · have hkv4 : kv = ("cnpj", mtext) := by simpa using hkv3
          rw [hkv4]
          exact findCnpjPattern_nonempty _ _ hf
  · rfl

/-- Witness for C7: a concrete document whose extraction contains the
identifier field with a non-empty value. -/
theorem parse_result_html_omits_empty_witness :
    ("cnpj", "00.006.486/0001-75") ∈ parse_result_html (Node.elem "html"
      [Node.elem "tr" [Node.elem "td" [Node.text "CNPJ"],
        Node.elem "td" [Node.text "00.006.486/0001-75"]]]) ∧
    ("00.006.486/0001-75" : String) ≠ "" :=
  ⟨by decide,
    (parse_result_html_omits_empty (Node.elem "html"
      [Node.elem "tr" [Node.elem "td" [Node.text "CNPJ"],
        Node.elem "td" [Node.text "00.006.486/0001-75"]]])).1
      ("cnpj", "00.006.486/0001-75") (by decide)⟩

theorem strategyNextNodes_eq_next_loop (root : Node) (el : List Nat) (vn : String) :
    strategyNextNodes root el vn = next_loop vn (next_elements root el) := by
  unfold strategyNextNodes
  generalize next_elements root el = l
  induction l with
  | nil => rfl
  | cons n rest ih =>
    simp only [List.map_cons, firstSome, next_loop]
    by_cases hc : (text_clean (get_text " " n) ≠ ""
        ∧ strLower (strip_accents (text_clean (get_text " " n))) ≠ vn)
    · rw [if_pos hc, if_pos hc]
      rfl
    · rw [if_neg hc, if_neg hc]
      simpa [orElseO] using ih

theorem ord_unfold (root : Node) (el : List Nat) (vn : String) :
    orderedStrategyValue root el vn
      = orElseO (strategySibling root el vn)
          (orElseO (strategyTableCell root el vn)
            (orElseO (strategyNextNodes root el vn) none)) := rfl

theorem spec_cons (root : Node) (v : String) (rest : List String) :
    specFindValue root (v :: rest)
      = orElseO (obind (soup_find_string root (strLower (strip_accents v)))
          (fun p => orderedStrategyValue root p.dropLast (strLower (strip_accents v))))
          (specFindValue root rest) := rfl

theorem ord_of_sibling (root : Node) (el : List Nat) (vn : String) (t : String)
    (hA : strategySibling root el vn = some t) :
    orderedStrategyValue root el vn = some t := by
  rw [ord_unfold, hA]
  rfl

theorem ord_of_table (root : Node) (el : List Nat) (vn : String) (t : String)
    (hA : strategySibling root el vn = none)
    (hB : strategyTableCell root el vn = some t) :
    orderedStrategyValue root el vn = some t := by
  rw [ord_unfold, hA, hB]
  rfl

theorem ord_of_next (root : Node) (el : List Nat) (vn : String) (t : String)
    (hA : strategySibling root el vn = none)
    (hB : strategyTableCell root el vn = none)
    (hC : strategyNextNodes root el vn = some t) :
    orderedStrategyValue root el vn = some t := by
  rw [ord_unfold, hA, hB, hC]
  rfl

theorem ord_of_none (root : Node) (el : List Nat) (vn : String)
    (hA : strategySibling root el vn = none)
    (hB : strategyTableCell root el vn = none)
    (hC : strategyNextNodes root el vn = none) :
    orderedStrategyValue root el vn = none := by
  rw [ord_unfold, hA, hB, hC]
  rfl

theorem spec_cons_some (root : Node) (v : String) (rest : List String) (p : List Nat)
    (t : String)
    (hfind : soup_find_string root (strLower (strip_accents v)) = some p)
    (hOrd : orderedStrategyValue root p.dropLast (strLower (strip_accents v)) = some t) :
    specFindValue root (v :: rest) = some t := by
  rw [spec_cons, hfind]
  simp only [obind]
  rw [hOrd]
  rfl

theorem spec_cons_fail (root : Node) (v : String) (rest : List String) (p : List Nat)
    (hfind : soup_find_string root (strLower (strip_accents v)) = some p)
    (hOrd : orderedStrategyValue root p.dropLast (strLower (strip_accents v)) = none) :
    specFindValue root (v :: rest) = specFindValue root rest := by
  rw [spec_cons, hfind]
  simp only [obind]
  rw [hOrd]
  rfl

theorem spec_cons_nomatch (root : Node) (v : String) (rest : List String)
    (hfind : soup_find_string root (strLower (strip_accents v)) = none) :
    specFindValue root (v :: rest) = specFindValue root rest := by
  rw [spec_cons, hfind]
  rfl
theorem find_cons_nomatch (root : Node) (v : String) (rest : List String)
    (hfind : soup_find_string root (strLower (strip_accents v)) = none) :
    find_value_for_label root (v :: rest) = find_value_for_label root rest := by
  conv_lhs => rw [find_value_for_label]
  simp only []
  rw [hfind]

theorem find_cons_found (root : Node) (v : String) (rest : List String) (p : List Nat)
    (hfind : soup_find_string root (strLower (strip_accents v)) = some p) :
    find_value_for_label root (v :: rest)
      = (match find_next_sibling root p.dropLast with
         | some sib =>
           if text_clean (get_text " " sib) ≠ "" then
             some (text_clean (get_text " " sib))
           else
             match find_parent_tr root p.dropLast with
             | some tr =>
               if 2 ≤ (directCells tr).length then
                 if text_clean (get_text " "
                     ((directCells tr).getD 1 (Node.text ""))) ≠ "" then
                   some (text_clean (get_text " "
                     ((directCells tr).getD 1 (Node.text ""))))
                 else
                   match next_loop (strLower (strip_accents v))
                       (next_elements root p.dropLast) with
                   | some t => some t
                   | none => find_value_for_label root rest
               else
                 match next_loop (strLower (strip_accents v))
                     (next_elements root p.dropLast) with
                 | some t => some t
                 | none => find_value_for_label root rest
             | none =>
               match next_loop (strLower (strip_accents v))
                   (next_elements root p.dropLast) with
               | some t => some t
               | none => find_value_for_label root rest
         | none =>
           match find_parent_tr root p.dropLast with
           | some tr =>
             if 2 ≤ (directCells tr).length then
               if text_clean (get_text " "
                   ((directCells tr).getD 1 (Node.text ""))) ≠ "" then
                 some (text_clean (get_text " "
                   ((directCells tr).getD 1 (Node.text ""))))
               else
                 match next_loop (strLower (strip_accents v))
                     (next_elements root p.dropLast) with
                 | some t => some t
                 | none => find_value_for_label root rest
             else
               match next_loop (strLower (strip_accents v))
                   (next_elements root p.dropLast) with
               | some t => some t
               | none => find_value_for_label root rest
           | none =>
             match next_loop (strLower (strip_accents v))
                 (next_elements root p.dropLast) with
             | some t => some t
             | none => find_value_for_label root rest) := by
  conv_lhs => rw [find_value_for_label]
  simp only []
  rw [hfind]

theorem next_resolution_eq (root : Node) (p : List Nat) (v : String) (rest : List String)
    (hfind : soup_find_string root (strLower (strip_accents v)) = some p)
    (hsA : strategySibling root p.dropLast (strLower (strip_accents v)) = none)
    (hB : strategyTableCell root p.dropLast (strLower (strip_accents v)) = none)
    (ih : find_value_for_label root rest = specFindValue root rest) :
    (match next_loop (strLower (strip_accents v)) (next_elements root p.dropLast) with
     | some t => some t
     | none => find_value_for_label root rest)
    = specFindValue root (v :: rest) := by
  cases hnl : next_loop (strLower (strip_accents v)) (next_elements root p.dropLast) with
  | some t =>
    have hC : strategyNextNodes root p.dropLast (strLower (strip_accents v)) = some t := by
      rw [strategyNextNodes_eq_next_loop]
      exact hnl
    rw [spec_cons_some root v rest p t hfind (ord_of_next root p.dropLast _ t hsA hB hC)]
  | none =>
    have hC : strategyNextNodes root p.dropLast (strLower (strip_accents v)) = none := by
      rw [strategyNextNodes_eq_next_loop]
      exact hnl
    rw [spec_cons_fail root v rest p hfind (ord_of_none root p.dropLast _ hsA hB hC)]
    exact ih

theorem tail_resolution_eq (root : Node) (p : List Nat) (v : String) (rest : List String)
    (hfind : soup_find_string root (strLower (strip_accents v)) = some p)
    (hsA : strategySibling root p.dropLast (strLower (strip_accents v)) = none)
    (ih : find_value_for_label root rest = specFindValue root rest) :
    (match find_parent_tr root p.dropLast with
     | some tr =>
       if 2 ≤ (directCells tr).length then
         if text_clean (get_text " " ((directCells tr).getD 1 (Node.text ""))) ≠ "" then
           some (text_clean (get_text " " ((directCells tr).getD 1 (Node.text ""))))
         else
           match next_loop (strLower (strip_accents v)) (next_elements root p.dropLast) with
           | some t => some t
           | none => find_value_for_label root rest
       else
         match next_loop (strLower (strip_accents v)) (next_elements root p.dropLast) with
         | some t => some t
         | none => find_value_for_label root rest
     | none =>
       match next_loop (strLower (strip_accents v)) (next_elements root p.dropLast) with
       | some t => some t
       | none => find_value_for_label root rest)
    = specFindValue root (v :: rest) := by
  cases htr : find_parent_tr root p.dropLast with
  | none =>
    have hB : strategyTableCell root p.dropLast (strLower (strip_accents v)) = none := by
      unfold strategyTableCell
      rw [htr]
    exact next_resolution_eq root p v rest hfind hsA hB ih
  | some tr =>
    by_cases hlen : 2 ≤ (directCells tr).length
    · by_cases htxt : text_clean (get_text " " ((directCells tr).getD 1 (Node.text ""))) ≠ ""
      · have hB : strategyTableCell root p.dropLast (strLower (strip_accents v))
            = some (text_clean (get_text " " ((directCells tr).getD 1 (Node.text "")))) := by
          unfold strategyTableCell
          rw [htr]
          simp only []
          rw [if_pos hlen, if_pos htxt]
        rw [spec_cons_some root v rest p _ hfind
          (ord_of_table root p.dropLast _ _ hsA hB)]
        change (if 2 ≤ (directCells tr).length then _ else _) = _
        rw [if_pos hlen]
        rw [if_pos htxt]
      · have hB : strategyTableCell root p.dropLast (strLower (strip_accents v)) = none := by
          unfold strategyTableCell
          rw [htr]
          simp only []
          rw [if_pos hlen, if_neg htxt]
        have hnext := next_resolution_eq root p v rest hfind hsA hB ih
        refine Eq.trans ?_ hnext
        change (if 2 ≤ (directCells tr).length then _ else _) = _
        rw [if_pos hlen]
        rw [if_neg htxt]
    · have hB : strategyTableCell root p.dropLast (strLower (strip_accents v)) = none := by
        unfold strategyTableCell
        rw [htr]
        simp only []
        rw [if_neg hlen]
      have hnext := next_resolution_eq root p v rest hfind hsA hB ih
      refine Eq.trans ?_ hnext
      change (if 2 ≤ (directCells tr).length then _ else _) = _
      rw [if_neg hlen]

/-- C6: the extractor's nested label-to-value resolution is exactly the
ordered-strategy formulation: candidate label strings are tried in
declared order, and on a label match the value is resolved by trying, in
order, (a) the matched element's next sibling's text, (b) the second cell
of the enclosing table row, (c) the first subsequent document node in
document order whose non-empty normalized text differs from the label
text; the first strategy yielding a non-empty result determines the
field's value, and a variant that matches but resolves nothing falls
through to the next variant. -/
theorem find_value_strategy_order (root : Node) (variants : List String) :
    find_value_for_label root variants = specFindValue root variants := by
  induction variants with
  | nil => rfl
  | cons v rest ih =>
    cases hfind : soup_find_string root (strLower (strip_accents v)) with
    | none =>
      rw [find_cons_nomatch root v rest hfind, spec_cons_nomatch root v rest hfind]
      exact ih
    | some p =>
      rw [find_cons_found root v rest p hfind]
      cases hsib : find_next_sibling root p.dropLast with
      | some sib =>
        by_cases ht : text_clean (get_text " " sib) ≠ ""
        · have hsA : strategySibling root p.dropLast (strLower (strip_accents v))
              = some (text_clean (get_text " " sib)) := by
            unfold strategySibling
            rw [hsib]
            simp only []
            rw [if_pos ht]
          rw [spec_cons_some root v rest p _ hfind
            (ord_of_sibling root p.dropLast _ _ hsA)]
          change (if text_clean (get_text " " sib) ≠ "" then _ else _) = _
          rw [if_pos ht]
        · have hsA : strategySibling root p.dropLast (strLower (strip_accents v))
              = none := by
            unfold strategySibling
            rw [hsib]
            simp only []
            rw [if_neg ht]
          have htail := tail_resolution_eq root p v rest hfind hsA ih
          refine Eq.trans ?_ htail
          change (if text_clean (get_text " " sib) ≠ "" then _ else _) = _
          rw [if_neg ht]
      | none =>
        have hsA : strategySibling root p.dropLast (strLower (strip_accents v))
            = none := by
          unfold strategySibling
          rw [hsib]
        exact tail_resolution_eq root p v rest hfind hsA ih


end AsyncScraper
